import Mathlib

/-!
Verification of the ClipTrace relocation core (content/content-script.js).

Strings are modelled as lists of characters (`List Char`); JavaScript string
operations map to list operations (substring start/end to take/drop, indexOf
enumeration to position filtering, and so on).  Machine-level details that the
claims do not touch (the DOM tree walk, chrome messaging, timers) enter the
model as explicit parameters.
-/

namespace ClipTrace

/-- The ECMAScript white-space class matched by the regex class `[\s　]`
in normalizeText (content-script.js line 891): WhiteSpace plus LineTerminator
code points.  U+3000 is already inside `\s`; the source lists it again. -/
def isJsWhitespace (c : Char) : Bool :=
  let n := c.toNat
  n == 0x9 || n == 0xA || n == 0xB || n == 0xC || n == 0xD || n == 0x20 ||
  n == 0xA0 || n == 0x1680 || (0x2000 ≤ n && n ≤ 0x200A) || n == 0x2028 ||
  n == 0x2029 || n == 0x202F || n == 0x205F || n == 0x3000 || n == 0xFEFF

/-- The zero-width class of normalizeText (line 892): U+200B..U+200D and the
byte-order mark U+FEFF. -/
def isZeroWidth (c : Char) : Bool :=
  let n := c.toNat
  (0x200B ≤ n && n ≤ 0x200D) || n == 0xFEFF

/-- ASCII fragment of String.prototype.toLowerCase, applied per character
(line 890).  Only the A..Z range is relevant to the development. -/
def jsToLower (c : Char) : Char :=
  if 65 ≤ c.toNat && c.toNat ≤ 90 then Char.ofNat (c.toNat + 32) else c

/-- Worker for `collapseWs`; the flag records whether the previous character
belonged to a white-space run (whose single replacement space was already
emitted). -/
def collapseWsAux : Bool → List Char → List Char
  | _, [] => []
  | prevWs, c :: rest =>
    if isJsWhitespace c then
      if prevWs then collapseWsAux true rest
      else ' ' :: collapseWsAux true rest
    else c :: collapseWsAux false rest

/-- The replacement `.replace(/[\s　]+/g, ' ')` (line 891): every maximal
run of white-space characters becomes a single ASCII space. -/
def collapseWs (l : List Char) : List Char :=
  collapseWsAux false l

/-- String.prototype.trim (line 893): strip leading and trailing white space. -/
def trimChars (l : List Char) : List Char :=
  ((l.dropWhile isJsWhitespace).reverse.dropWhile isJsWhitespace).reverse

/-- normalizeText (content-script.js lines 887-894): lowercase, collapse
white-space runs to single spaces, strip zero-width characters, trim. -/
def normalizeText (text : List Char) : List Char :=
  trimChars ((collapseWs (text.map jsToLower)).filter (fun c => !isZeroWidth c))

/-- findActualIndex while-loop (lines 899-905): advance `i`, counting the
characters whose single-character normalization is non-empty, until the count
reaches the target or the string is exhausted; returns the final `i`. -/
def faiLoop (normalizedIndex : Nat) : List Char → Nat → Nat → Nat
  | [], _, i => i
  | c :: rest, count, i =>
    if count < normalizedIndex then
      faiLoop normalizedIndex rest
        (if 0 < (normalizeText [c]).length then count + 1 else count) (i + 1)
    else i

/-- findActualIndex (content-script.js lines 897-907).  The second argument is
unused by the source body; it is kept for signature fidelity. -/
def findActualIndex (original normalizedSearch : List Char)
    (normalizedIndex : Nat) : Int :=
  let i := faiLoop normalizedIndex original 0 0
  if i < original.length then (i : Int) else -1

/-- Copy-listener text clamp (content-script.js lines 141-144): texts longer
than 10000 characters are cut to 10000 and a marker suffix is appended. -/
def truncateCopyText (copiedText : List Char) : List Char :=
  if copiedText.length > 10000 then
    copiedText.take 10000 ++ ("... (truncated)".toList)
  else copiedText

/-- String.prototype.includes: some suffix position of `l` starts with `pat`. -/
def jsIncludes (l pat : List Char) : Bool :=
  (List.range (l.length + 1)).any (fun k => pat.isPrefixOf (l.drop k))

/-- Parent element of a text node, as consulted by calculateContextScore:
tag name and (optional) class attribute. -/
structure ParentElement where
  tagName : List Char
  className : Option (List Char)
deriving DecidableEq

/-- A text node of the document, paired with its parent element (absent for a
detached node).  The tree walker of the source is modelled as the document
order list of these nodes. -/
structure TextNode where
  textContent : List Char
  parentElement : Option ParentElement
deriving DecidableEq

/-- The selectionInfo payload built by getSelectionContext (lines 189-206) and
replayed to highlightText; originalText is attached by the sidebar.  Absent or
empty JavaScript fields are the empty list (falsy either way). -/
structure SelectionInfo where
  xpath : Option (List Char)
  offset : Nat
  length : Nat
  surroundingText : List Char
  textBefore : List Char
  textAfter : List Char
  parentTagName : List Char
  parentClassName : List Char
  originalText : List Char
deriving DecidableEq

/-- calculateContextScore (content-script.js lines 457-513). -/
def calculateContextScore (node : TextNode) (matchIndex : Nat)
    (selectionInfo : Option SelectionInfo) : Nat :=
  match selectionInfo with
  | none => 50
  | some si =>
    let nodeText := node.textContent
    let beforeScore :=
      if si.textBefore ≠ [] then
        let beforeText := nodeText.take matchIndex
        let normalizedBefore := normalizeText beforeText
        let normalizedExpected := normalizeText si.textBefore
        if normalizedExpected.isSuffixOf normalizedBefore then 35
        else if 10 ≤ normalizedExpected.length &&
            jsIncludes normalizedBefore
              (normalizedExpected.drop (normalizedExpected.length - 20)) then 20
        else 0
      else 0
    let afterScore :=
      if si.textAfter ≠ [] then
        let afterText := nodeText.drop (matchIndex + si.length)
        let normalizedAfter := normalizeText afterText
        let normalizedExpected := normalizeText si.textAfter
        if normalizedExpected.isPrefixOf normalizedAfter then 35
        else if 10 ≤ normalizedExpected.length &&
            jsIncludes normalizedAfter (normalizedExpected.take 20) then 20
        else 0
      else 0
    let parentScore :=
      match node.parentElement with
      | none => 0
      | some parent =>
        if si.parentTagName ≠ [] then
          (if parent.tagName = si.parentTagName then 12 else 0) +
          (if si.parentClassName ≠ [] &&
              (match parent.className with
               | some cn => jsIncludes cn si.parentClassName
               | none => false) then 8 else 0)
        else 0
    beforeScore + afterScore + parentScore + 10

/-- A scored candidate, as pushed by findAllMatchesWithScoring (line 539). -/
structure ScoredMatch where
  node : TextNode
  index : Nat
  score : Nat
  normalizedIndex : Nat
deriving DecidableEq

/-- The inner indexOf loop of findAllMatchesWithScoring (lines 531-543): the
strictly increasing list of positions where the normalized search string
occurs in the normalized node text, each mapped through findActualIndex and
scored; positions that findActualIndex fails to map are dropped. -/
def nodeMatches (normalizedSearch : List Char) (node : TextNode)
    (selectionInfo : Option SelectionInfo) : List ScoredMatch :=
  let normalizedNode := normalizeText node.textContent
  ((List.range normalizedNode.length).filter
      (fun k => normalizedSearch.isPrefixOf (normalizedNode.drop k))).filterMap
    (fun k =>
      let actualIndex := findActualIndex node.textContent normalizedSearch k
      if actualIndex ≠ -1 then
        some ⟨node, actualIndex.toNat,
          calculateContextScore node actualIndex.toNat selectionInfo, k⟩
      else none)

/-- One step of the stable descending sort: insert `a` after every already
placed candidate whose score is at least `a.score`. -/
def sortInsert (a : ScoredMatch) : List ScoredMatch → List ScoredMatch
  | [] => [a]
  | b :: rest =>
    if b.score < a.score then a :: b :: rest else b :: sortInsert a rest

/-- The sort at line 547, `matches.sort((a, b) => b.score - a.score)`:
Array.prototype.sort is stable, so this is the stable descending sort by
score (insertion formulation). -/
def sortByScoreDesc : List ScoredMatch → List ScoredMatch
  | [] => []
  | a :: rest => sortInsert a (sortByScoreDesc rest)

/-- findAllMatchesWithScoring (content-script.js lines 518-548): walk the
document order text nodes, collect every occurrence, then stable-sort
descending by score. -/
def findAllMatchesWithScoring (searchText : List Char)
    (selectionInfo : Option SelectionInfo) (doc : List TextNode) :
    List ScoredMatch :=
  let normalizedSearch := normalizeText searchText
  if normalizedSearch.length < 3 then []
  else
    sortByScoreDesc
      ((doc.map (fun n => nodeMatches normalizedSearch n selectionInfo)).flatten)

/-- The catch branch of highlightByExactMatchWithScoring (lines 592-609):
after the top candidate fails to apply, retry the second-best candidate
under the same threshold, declining when it is absent, is below the
threshold, or also fails to apply. -/
def retrySecond (minScore : Nat) (applyOk : Nat → Bool) :
    List ScoredMatch → Bool
  | [] => false
  | secondMatch :: _ =>
    if minScore ≤ secondMatch.score then applyOk 1 else false

/-- The accept/retry logic of highlightByExactMatchWithScoring
(lines 563-610) over the sorted candidate list. -/
def pickScoredMatch (minScore : Nat) (applyOk : Nat → Bool) :
    List ScoredMatch → Bool
  | [] => false
  | bestMatch :: rest =>
    if bestMatch.score < minScore then false
    else if applyOk 0 then true
    else retrySecond minScore applyOk rest

/-- highlightByExactMatchWithScoring (content-script.js lines 554-611).  The
range construction and marker wrapping can throw (caught at lines 591 and
605); the oracle `applyOk k` states whether applying the k-th candidate of
the sorted list succeeds. -/
def highlightByExactMatchWithScoring (originalText : List Char)
    (selectionInfo : Option SelectionInfo) (doc : List TextNode)
    (applyOk : Nat → Bool) : Bool :=
  let normalizedSearch := normalizeText originalText
  if normalizedSearch.length < 5 then false
  else
    pickScoredMatch (if normalizedSearch.length < 15 then 40 else 20) applyOk
      (findAllMatchesWithScoring originalText selectionInfo doc)

/-- Post-wrap state of a highlight marker, as inspected by tryXPathHighlight
lines 424-437: whether the mark still has a parent node, whether
document.body contains it, and its textContent. -/
structure WrapResult where
  hasParent : Bool
  inBody : Bool
  markText : List Char
deriving DecidableEq

/-- tryXPathHighlight (content-script.js lines 369-446) for an anchor whose
address already resolved to the text node `textNode`; `wrapThrows` states
whether range.surroundContents throws (caught at line 442), and `wrap` is the
post-wrap marker state. -/
def tryXPathHighlight (textNode : List Char) (offset length : Nat)
    (originalText : List Char) (wrapThrows : Bool) (wrap : WrapResult) :
    Bool :=
  let actualOffset := min offset textNode.length
  let endOffset := min (actualOffset + length) textNode.length
  if actualOffset ≥ endOffset || endOffset > textNode.length then false
  else
    let foundText := (textNode.drop actualOffset).take (endOffset - actualOffset)
    if (trimChars foundText).length = 0 then false
    else if originalText.length > 0 &&
        (let normalizedFound := normalizeText foundText
         let normalizedOriginal := normalizeText originalText
         let minMatchLength :=
           min (min normalizedFound.length normalizedOriginal.length) 30
         5 ≤ minMatchLength &&
           normalizedFound.take minMatchLength ≠
             normalizedOriginal.take minMatchLength) then false
    else if wrapThrows then false
    else if !wrap.hasParent || !wrap.inBody then false
    else if (trimChars wrap.markText).length = 0 then false
    else true

/-- highlightByTextSearch inner walker loop (lines 698-713): find the first
node containing the snippet, wrap it (continue on a throw) and report
success.  The post-wrap state `wrap i` is never consulted by the source. -/
def textSearchLoop (searchSnippet : List Char) (wrapThrows : Nat → Bool)
    (wrap : Nat → WrapResult) : List TextNode → Nat → Bool
  | [], _ => false
  | node :: rest, i =>
    if jsIncludes (normalizeText node.textContent) searchSnippet then
      if wrapThrows i then textSearchLoop searchSnippet wrapThrows wrap rest (i + 1)
      else true
    else textSearchLoop searchSnippet wrapThrows wrap rest (i + 1)

/-- highlightByTextSearch (content-script.js lines 691-715). -/
def highlightByTextSearch (searchText : List Char) (doc : List TextNode)
    (wrapThrows : Nat → Bool) (wrap : Nat → WrapResult) : Bool :=
  if searchText = [] || searchText.length < 10 then false
  else textSearchLoop (normalizeText (searchText.take 60)) wrapThrows wrap doc 0

/-- Observable outcome of invoking one relocation strategy: it highlights and
returns true, declines and returns false, or throws out of its own body (to
be caught by the try/catch of highlightText). -/
inductive StratResult
  | success
  | decline
  | crash
deriving DecidableEq

/-- The guard of the i-th strategy call inside highlightText (lines 294-325),
numbered 1..7 in source order: truthy xpath; originalText length at least 5,
10, 15, 20; truthy surroundingText; originalText length at least 10. -/
def strategyGuard (si : SelectionInfo) : Nat → Bool
  | 1 => match si.xpath with
         | some p => !p.isEmpty
         | none => false
  | 2 => 5 ≤ si.originalText.length
  | 3 => 10 ≤ si.originalText.length
  | 4 => 15 ≤ si.originalText.length
  | 5 => 20 ≤ si.originalText.length
  | 6 => !si.surroundingText.isEmpty
  | 7 => 10 ≤ si.originalText.length
  | _ => false

/-- The strategies whose guards hold, in the fixed source order. -/
def attempted (si : SelectionInfo) : List Nat :=
  [1, 2, 3, 4, 5, 6, 7].filter (strategyGuard si)

/-- Run the guarded strategies in order, recording which were invoked;
stop at the first success, propagate a crash (an uncaught exception inside a
strategy call) as an error. -/
def runCascade (strat : Nat → StratResult) : List Nat →
    List Nat × Except Unit Bool
  | [] => ([], Except.ok false)
  | i :: rest =>
    match strat i with
    | StratResult.success => ([i], Except.ok true)
    | StratResult.crash => ([i], Except.error ())
    | StratResult.decline =>
      let r := runCascade strat rest
      (i :: r.1, r.2)

/-- What a relocation call leaves behind: the strategies that were invoked,
whether a highlight happened, how often the scroll-to-top fallback ran, and
whether a marker is left in the document. -/
structure CascadeOutcome where
  invoked : List Nat
  highlighted : Bool
  fallbackScrolls : Nat
  markerCreated : Bool
deriving DecidableEq

/-- highlightText (content-script.js lines 282-336) with its top-level
try/catch: the `Except` on the outside is the exception channel towards the
caller (the message listener); the catch at line 332 converts every internal
error into the scroll-to-top fallback, so the error branch is unreachable. -/
def highlightTextBoundary (si : SelectionInfo) (strat : Nat → StratResult) :
    Except Unit CascadeOutcome :=
  match runCascade strat (attempted si) with
  | (inv, Except.ok true) => Except.ok ⟨inv, true, 0, true⟩
  | (inv, Except.ok false) => Except.ok ⟨inv, false, 1, false⟩
  | (inv, Except.error _) => Except.ok ⟨inv, false, 1, false⟩

/-- The outcome of highlightText; total because the boundary never errors. -/
def highlightText (si : SelectionInfo) (strat : Nat → StratResult) :
    CascadeOutcome :=
  match highlightTextBoundary si strat with
  | Except.ok o => o
  | Except.error _ => ⟨[], false, 1, false⟩

/-- Strategy oracle for crash-free runs: true is success, false is decline. -/
def stratOfBool (strat : Nat → Bool) (i : Nat) : StratResult :=
  if strat i then StratResult.success else StratResult.decline

/-- Specification-side description of first-wins invocation: the guarded
strategies in order, cut after the first success. -/
def takeUpToSuccess (strat : Nat → Bool) : List Nat → List Nat
  | [] => []
  | i :: rest =>
    if strat i then [i] else i :: takeUpToSuccess strat rest

/-- A child of the parent element holding a highlight: a plain text node, the
highlight mark (with its textContent), or some other element subtree. -/
inductive DomChild
  | text : List Char → DomChild
  | mark : List Char → DomChild
  | elem : List Char → DomChild
deriving DecidableEq

/-- The text carried by one child node. -/
def DomChild.content : DomChild → List Char
  | DomChild.text s => s
  | DomChild.mark s => s
  | DomChild.elem s => s

/-- textContent of the parent: concatenation over the children. -/
def parentTextContent (children : List DomChild) : List Char :=
  (children.map DomChild.content).flatten

/-- Node.normalize() on the children list: merge runs of adjacent text nodes
and drop empty text nodes. -/
def domNormalize : List DomChild → List DomChild
  | [] => []
  | DomChild.text s :: rest =>
    match domNormalize rest with
    | DomChild.text t :: tail =>
      if (s ++ t).isEmpty then tail else DomChild.text (s ++ t) :: tail
    | other => if s.isEmpty then other else DomChild.text s :: other
  | c :: rest => c :: domNormalize rest

/-- The unwrap step of scrollToAndRemove (content-script.js lines 969-975):
the mark, sitting between siblings `pre` and `post`, is replaced by a plain
text node carrying its textContent, and the parent is normalized. -/
def scrollToAndRemoveUnwrap (pre : List DomChild) (markText : List Char)
    (post : List DomChild) : List DomChild :=
  domNormalize (pre ++ DomChild.text markText :: post)

/-- Range.surroundContents for a range lying inside the single text node `s`
from offset `a` to offset `b` (DOM semantics of line 421 and its peers): the
text node splits into the part before the range, the mark wrapping the range
slice, and the part after the range. -/
def surroundContentsSplit (s : List Char) (a b : Nat) : List DomChild :=
  [DomChild.text (s.take a), DomChild.mark ((s.drop a).take (b - a)),
   DomChild.text (s.drop b)]

/-- C7 counterexample: a copied text of 10001 characters is stored with
length 10015, not at most 10000 — the clamp appends a 15-character marker
suffix after cutting to 10000. -/
theorem truncateCopyText_over_limit :
    (truncateCopyText (List.replicate 10001 'a')).length = 10015 ∧
      truncateCopyText (List.replicate 10001 'a') ≠
        (List.replicate 10001 'a').take 10000 := by
  have hlen : ("... (truncated)".toList).length = 15 := rfl
  have h : truncateCopyText (List.replicate 10001 'a') =
      (List.replicate 10001 'a').take 10000 ++ ("... (truncated)".toList) := by
    rw [truncateCopyText, if_pos (by rw [List.length_replicate]; omega)]
  constructor
  · rw [h, List.length_append, List.length_take, List.length_replicate, hlen]
    omega
  · rw [h]
    intro heq
    have := congrArg List.length heq
    rw [List.length_append, List.length_take, List.length_replicate, hlen] at this
    omega

/-- C7 (amended): the stored text is the copied text when it fits in 10000
characters, and otherwise its first 10000 characters followed by the literal
marker suffix; the stored length can reach 10015 (bounded by 10015, not by
10000), and the stored text always starts with the first 10000 characters of
the input. -/
theorem truncateCopyText_amended (s : List Char) :
    (truncateCopyText s).length =
        min s.length 10000 + (if 10000 < s.length then 15 else 0)
    ∧ (truncateCopyText s).length ≤ 10015
    ∧ (truncateCopyText s).take 10000 = s.take 10000
    ∧ truncateCopyText s =
        (if 10000 < s.length then
          s.take 10000 ++ ("... (truncated)".toList) else s) := by
  have hlen : ("... (truncated)".toList).length = 15 := rfl
  by_cases h : s.length > 10000
  · have hdef : truncateCopyText s = s.take 10000 ++ ("... (truncated)".toList) := by
      rw [truncateCopyText, if_pos h]
    have htk : (s.take 10000).length = 10000 := by
      rw [List.length_take]; omega
    refine ⟨?_, ?_, ?_, ?_⟩
    · rw [hdef, List.length_append, htk, hlen, if_pos h]; omega
    · rw [hdef, List.length_append, htk, hlen]
    · rw [hdef, List.take_left' htk]
    · rw [hdef, if_pos h]
  · have hdef : truncateCopyText s = s := by
      rw [truncateCopyText, if_neg h]
    refine ⟨?_, ?_, by rw [hdef], by rw [hdef, if_neg h]⟩
    · rw [hdef, if_neg h]; omega
    · rw [hdef]; omega

/-- C10 failing input: in the original string "ab cd" the normalized search
string "cd" occurs at index 3 of `normalizeText "ab cd" = "ab cd"`, yet
findActualIndex maps position 3 to raw index 4, so the normalized suffix
starting at the returned index is "d", which does not begin with "cd" —
the loop counts a white-space character as zero normalized characters while
normalizeText keeps one space per run. -/
theorem findActualIndex_misaligned :
    (normalizeText ("cd".toList)).isPrefixOf
        ((normalizeText ("ab cd".toList)).drop 3) = true
    ∧ findActualIndex ("ab cd".toList) (normalizeText ("cd".toList)) 3 = 4
    ∧ (normalizeText ("cd".toList)).isPrefixOf
        (normalizeText (("ab cd".toList).drop 4)) = false
    ∧ (normalizeText ("cd".toList)).isPrefixOf
        (normalizeText (("ab cd".toList).drop 3)) = true
    ∧ 4 < ("ab cd".toList).length := by decide

/-- C3: for an anchor whose address resolved to a text node, strategy 1
computes the clamped offsets and declines when the range is empty
(actualOffset ≥ endOffset), and — when originalText is non-empty — declines
whenever the normalized resolved slice and the normalized originalText
disagree on their common prefix of length min(30, each length), provided
that common length is at least 5. -/
theorem tryXPathHighlight_decline_conditions (textNode : List Char)
    (offset length : Nat) (originalText : List Char) (wrapThrows : Bool)
    (wrap : WrapResult) :
    (min offset textNode.length ≥
        min (min offset textNode.length + length) textNode.length →
      tryXPathHighlight textNode offset length originalText wrapThrows wrap
        = false)
    ∧ (originalText ≠ [] →
        5 ≤ min (min
            (normalizeText ((textNode.drop (min offset textNode.length)).take
              (min (min offset textNode.length + length) textNode.length -
                min offset textNode.length))).length
            (normalizeText originalText).length) 30 →
        (normalizeText ((textNode.drop (min offset textNode.length)).take
            (min (min offset textNode.length + length) textNode.length -
              min offset textNode.length))).take
          (min (min
            (normalizeText ((textNode.drop (min offset textNode.length)).take
              (min (min offset textNode.length + length) textNode.length -
                min offset textNode.length))).length
            (normalizeText originalText).length) 30) ≠
        (normalizeText originalText).take
          (min (min
            (normalizeText ((textNode.drop (min offset textNode.length)).take
              (min (min offset textNode.length + length) textNode.length -
                min offset textNode.length))).length
            (normalizeText originalText).length) 30) →
        tryXPathHighlight textNode offset length originalText wrapThrows wrap
          = false) := by
  constructor
  · intro h
    simp only [tryXPathHighlight]
    rw [if_pos]
    simp [h]
  · intro hne hlen hdiff
    simp only [tryXPathHighlight]
    split
    · rfl
    · split
      · rfl
      · rw [if_pos]
        simp only [Bool.and_eq_true, decide_eq_true_eq]
        exact ⟨List.length_pos.mpr hne, hlen, hdiff⟩

/-- C3 witness: a concrete anchor whose resolved slice disagrees with the
originalText on the normalized 5-character common prefix is declined. -/
theorem tryXPathHighlight_decline_witness :
    tryXPathHighlight ("hello world".toList) 0 5 ("zzzzz".toList) false
      ⟨true, true, "hello".toList⟩ = false :=
  (tryXPathHighlight_decline_conditions ("hello world".toList) 0 5
    ("zzzzz".toList) false ⟨true, true, "hello".toList⟩).2
    (by decide) (by decide) (by decide)

/-- Helper for C6: the walker loop of highlightByTextSearch never consults
the post-wrap marker state. -/
theorem textSearchLoop_ignores_wrap (searchSnippet : List Char)
    (wrapThrows : Nat → Bool) (wrap wrap2 : Nat → WrapResult) :
    ∀ (doc : List TextNode) (i : Nat),
      textSearchLoop searchSnippet wrapThrows wrap doc i =
        textSearchLoop searchSnippet wrapThrows wrap2 doc i := by
  intro doc
  induction doc with
  | nil => intro i; rfl
  | cons node rest ih =>
    intro i
    unfold textSearchLoop
    rw [ih (i + 1)]

/-- C6 (amended): only the address-guided strategy validates the marker after
wrapping — tryXPathHighlight reports failure whenever the mark lost its
parent, is not contained in document.body, or has white-space-only text;
highlightByTextSearch never inspects the post-wrap marker state, so its
result is independent of it. -/
theorem postwrap_validation_only_xpath :
    (∀ (textNode : List Char) (offset length : Nat)
        (originalText : List Char) (wrapThrows : Bool) (wrap : WrapResult),
        (wrap.hasParent = false ∨ wrap.inBody = false ∨
          (trimChars wrap.markText).length = 0) →
        tryXPathHighlight textNode offset length originalText wrapThrows wrap
          = false)
    ∧ (∀ (searchText : List Char) (doc : List TextNode)
        (wrapThrows : Nat → Bool) (wrap wrap2 : Nat → WrapResult),
        highlightByTextSearch searchText doc wrapThrows wrap =
          highlightByTextSearch searchText doc wrapThrows wrap2) := by
  constructor
  · intro textNode offset length originalText wrapThrows wrap hbad
    simp only [tryXPathHighlight]
    split
    · rfl
    · split
      · rfl
      · split
        · rfl
        · split
          · rfl
          · rcases hbad with h | h | h
            · simp [h]
            · simp [h]
            · simp [h]
  · intro searchText doc wrapThrows wrap wrap2
    simp only [highlightByTextSearch]
    split
    · rfl
    · exact textSearchLoop_ignores_wrap _ _ _ _ doc 0

/-- C6 witness: a concrete invalid post-wrap state makes tryXPathHighlight
report failure to the cascade. -/
theorem postwrap_validation_only_xpath_witness :
    tryXPathHighlight ("abcdef".toList) 0 3 [] false ⟨false, true, "x".toList⟩
      = false :=
  postwrap_validation_only_xpath.1 ("abcdef".toList) 0 3 [] false
    ⟨false, true, "x".toList⟩ (Or.inl rfl)

/-- C6 counterexample: highlightByTextSearch finds and wraps a node, the
post-wrap oracle reports a detached marker with empty text — the state the
claimed validation must reject — and the strategy still reports success. -/
theorem highlightByTextSearch_no_postwrap_check :
    highlightByTextSearch ("hello world".toList)
      [⟨("this says hello   world somewhere".toList), none⟩]
      (fun _ => false) (fun _ => ⟨false, false, []⟩) = true := by decide

/-- Helper for C1: in a crash-free run the cascade invokes exactly the
guarded strategies up to and including the first success, and succeeds iff
some guarded strategy succeeds. -/
theorem runCascade_stratOfBool (strat : Nat → Bool) (l : List Nat) :
    runCascade (stratOfBool strat) l =
      (takeUpToSuccess strat l, Except.ok (l.any strat)) := by
  induction l with
  | nil => rfl
  | cons i rest ih =>
    by_cases h : strat i
    · simp [runCascade, stratOfBool, takeUpToSuccess, h]
    · simp [runCascade, stratOfBool, takeUpToSuccess, h, ih]

/-- C1: the cascade is first-wins — the invoked strategies are the guarded
ones in fixed order 1..7, cut at the first success; the call highlights iff
some guarded strategy succeeds; and when the address-guided strategy (1) is
applicable and validates successfully, only strategy 1 is invoked, so none
of strategies 2-7 runs. -/
theorem cascade_first_wins (si : SelectionInfo) (strat : Nat → Bool) :
    (highlightText si (stratOfBool strat)).invoked =
        takeUpToSuccess strat (attempted si)
    ∧ (highlightText si (stratOfBool strat)).highlighted =
        (attempted si).any strat
    ∧ (strategyGuard si 1 = true → strat 1 = true →
        (highlightText si (stratOfBool strat)).invoked = [1]
        ∧ (highlightText si (stratOfBool strat)).highlighted = true) := by
  have hrun := runCascade_stratOfBool strat (attempted si)
  have hout : highlightText si (stratOfBool strat) =
      ⟨takeUpToSuccess strat (attempted si), (attempted si).any strat,
        if (attempted si).any strat then 0 else 1,
        (attempted si).any strat⟩ := by
    unfold highlightText highlightTextBoundary
    rw [hrun]
    by_cases h : (attempted si).any strat
    · rw [h]; simp [h]
    · simp only [Bool.not_eq_true] at h
      rw [h]; simp [h]
  have hatt : strategyGuard si 1 = true →
      attempted si = 1 :: [2, 3, 4, 5, 6, 7].filter (strategyGuard si) := by
    intro h1
    simp only [attempted, List.filter, h1]
  refine ⟨by rw [hout], by rw [hout], fun h1 hs1 => ?_⟩
  have hcut : takeUpToSuccess strat (attempted si) = [1] := by
    rw [hatt h1, takeUpToSuccess, if_pos hs1]
  have hany : (attempted si).any strat = true := by
    rw [hatt h1]
    simp [hs1]
  exact ⟨by rw [hout, hcut], by rw [hout, hany]⟩

/-- C1 witness: a concrete anchor with a truthy address where strategy 1
succeeds; the cascade invokes only strategy 1. -/
theorem cascade_first_wins_witness :
    (highlightText
        ⟨some ("/html/body".toList), 0, 5, [], [], [], [], [],
          ("hello".toList)⟩
        (stratOfBool (fun i => i == 1))).invoked = [1] :=
  ((cascade_first_wins
    ⟨some ("/html/body".toList), 0, 5, [], [], [], [], [], ("hello".toList)⟩
    (fun i => i == 1)).2.2 (by decide) (by decide)).1

/-- Helper for C8: a run in which every guarded strategy declines returns no
highlight and no error. -/
theorem runCascade_all_decline (strat : Nat → StratResult) (l : List Nat)
    (h : ∀ i ∈ l, strat i = StratResult.decline) :
    runCascade strat l = (l, Except.ok false) := by
  induction l with
  | nil => rfl
  | cons i rest ih =>
    have hi := h i (List.mem_cons_self i rest)
    have hrest := ih (fun j hj => h j (List.mem_cons_of_mem i hj))
    simp [runCascade, hi, hrest]

/-- C8: the relocation boundary never propagates an exception (the result is
always in the ok branch, even when a strategy crashes), and on exhaustion —
every guarded strategy declines — the neutral fallback (scroll to top) runs
exactly once and no marker is created. -/
theorem relocation_boundary_safe (si : SelectionInfo)
    (strat : Nat → StratResult) :
    (∃ o, highlightTextBoundary si strat = Except.ok o)
    ∧ ((∀ i ∈ attempted si, strat i = StratResult.decline) →
        highlightTextBoundary si strat =
          Except.ok ⟨attempted si, false, 1, false⟩) := by
  constructor
  · unfold highlightTextBoundary
    rcases hr : runCascade strat (attempted si) with ⟨inv, r⟩
    cases r with
    | ok b => cases b <;> exact ⟨_, rfl⟩
    | error e => exact ⟨_, rfl⟩
  · intro hdecl
    unfold highlightTextBoundary
    rw [runCascade_all_decline strat (attempted si) hdecl]

/-- C8 witness: with every strategy declining on a concrete anchor, the
boundary returns ok with one fallback scroll and no marker. -/
theorem relocation_boundary_safe_witness :
    highlightTextBoundary
        ⟨some ("/html/body".toList), 0, 5, ("ctx".toList), [], [], [], [],
          ("hello world here".toList)⟩
        (fun _ => StratResult.decline) =
      Except.ok
        ⟨attempted
          ⟨some ("/html/body".toList), 0, 5, ("ctx".toList), [], [], [], [],
            ("hello world here".toList)⟩, false, 1, false⟩ :=
  (relocation_boundary_safe _ _).2 (fun _ _ => rfl)

/-- Node.normalize() does not change the parent's concatenated text. -/
theorem parentTextContent_domNormalize (children : List DomChild) :
    parentTextContent (domNormalize children) = parentTextContent children := by
  induction children with
  | nil => rfl
  | cons c rest ih =>
    cases c with
    | text s =>
      rw [domNormalize]
      rcases hrest : domNormalize rest with _ | ⟨c2, tail⟩
      · rw [hrest] at ih
        by_cases hs : s.isEmpty
        · simp_all [parentTextContent, DomChild.content,
            List.isEmpty_iff.mp hs]
        · simp_all [parentTextContent, DomChild.content]
      · cases c2 with
        | text t =>
          rw [hrest] at ih
          by_cases hst : (s ++ t).isEmpty
          · rcases List.append_eq_nil.mp (List.isEmpty_iff.mp hst) with ⟨h1, h2⟩
            subst h1; subst h2
            simp_all [parentTextContent, DomChild.content]
          · simp only [parentTextContent, List.map_cons, List.flatten_cons,
              DomChild.content] at ih ⊢
            rw [if_neg hst]
            simp only [List.map_cons, List.flatten_cons, DomChild.content,
              List.append_assoc, ← ih]
        | mark t =>
          rw [hrest] at ih
          by_cases hs : s.isEmpty
          · simp_all [parentTextContent, DomChild.content,
              List.isEmpty_iff.mp hs]
          · simp_all [parentTextContent, DomChild.content]
        | elem t =>
          rw [hrest] at ih
          by_cases hs : s.isEmpty
          · simp_all [parentTextContent, DomChild.content,
              List.isEmpty_iff.mp hs]
          · simp_all [parentTextContent, DomChild.content]
    | mark s =>
      simp only [domNormalize, parentTextContent, List.map_cons,
        List.flatten_cons, DomChild.content]
      exact congrArg (fun z => s ++ z) ih
    | elem s =>
      simp only [domNormalize, parentTextContent, List.map_cons,
        List.flatten_cons, DomChild.content]
      exact congrArg (fun z => s ++ z) ih

/-- parentTextContent distributes over concatenation of children. -/
theorem parentTextContent_append (l1 l2 : List DomChild) :
    parentTextContent (l1 ++ l2) =
      parentTextContent l1 ++ parentTextContent l2 := by
  simp [parentTextContent]

/-- C9: unwrapping restores the parent's text.  A range `[a, b)` inside the
text node `s` was wrapped (splitting `s` into the part before the range, the
mark holding the range slice, and the part after); when the timed unwrap
fires, the mark is replaced by a plain text node with its content and the
parent is normalized, and the parent's concatenated text equals what it was
immediately before the marker was created. -/
theorem unwrap_restores_text (pre post : List DomChild) (s : List Char)
    (a b : Nat) (hab : a ≤ b) :
    pre ++ surroundContentsSplit s a b ++ post =
      pre ++ [DomChild.text (s.take a),
        DomChild.mark ((s.drop a).take (b - a)),
        DomChild.text (s.drop b)] ++ post
    ∧ parentTextContent
        (scrollToAndRemoveUnwrap (pre ++ [DomChild.text (s.take a)])
          ((s.drop a).take (b - a)) (DomChild.text (s.drop b) :: post)) =
      parentTextContent (pre ++ DomChild.text s :: post) := by
  refine ⟨rfl, ?_⟩
  rw [scrollToAndRemoveUnwrap, parentTextContent_domNormalize]
  have hsplit : s.take a ++ ((s.drop a).take (b - a) ++ s.drop b) = s := by
    have h1 : s.take (a + (b - a)) = s.take a ++ (s.drop a).take (b - a) :=
      List.take_add s a (b - a)
    have h2 : a + (b - a) = b := by omega
    rw [h2] at h1
    rw [← List.append_assoc, ← h1, List.take_append_drop]
  simp only [parentTextContent, List.map_append, List.map_cons, List.map_nil,
    List.flatten_append, List.flatten_cons, List.flatten_nil,
    DomChild.content, List.append_nil, List.append_assoc]
  conv_rhs => rw [← hsplit]
  simp [List.append_assoc]

/-- C9 witness: a concrete wrap of "quick" inside "The quick brown fox",
unwrapped, restores the original text content. -/
theorem unwrap_restores_text_witness :
    parentTextContent
        (scrollToAndRemoveUnwrap
          ([] ++ [DomChild.text (("The quick brown fox".toList).take 4)])
          ((("The quick brown fox".toList).drop 4).take (9 - 4))
          (DomChild.text (("The quick brown fox".toList).drop 9) :: [])) =
      parentTextContent ([] ++ DomChild.text ("The quick brown fox".toList) :: []) :=
  (unwrap_restores_text [] [] ("The quick brown fox".toList) 4 9
    (by decide)).2

/-- C4: the scored exact match accepts the top candidate only when its score
reaches the threshold — 40 when the normalized search text is shorter than
15 characters, 20 otherwise; when applying the top candidate fails, the
second-best candidate is retried under the same threshold; and the strategy
declines when no candidate clears the threshold, when there is no second
candidate after a first failure, or when the second application also fails
(the result then equals the second application's outcome). -/
theorem scored_threshold_retry (originalText : List Char)
    (si : Option SelectionInfo) (doc : List TextNode) (applyOk : Nat → Bool) :
    (findAllMatchesWithScoring originalText si doc = [] →
      highlightByExactMatchWithScoring originalText si doc applyOk = false)
    ∧ ∀ bestMatch rest,
        findAllMatchesWithScoring originalText si doc = bestMatch :: rest →
        5 ≤ (normalizeText originalText).length →
        ((bestMatch.score <
            (if (normalizeText originalText).length < 15 then 40 else 20) →
          highlightByExactMatchWithScoring originalText si doc applyOk
            = false)
        ∧ ((if (normalizeText originalText).length < 15 then 40 else 20) ≤
              bestMatch.score → applyOk 0 = true →
            highlightByExactMatchWithScoring originalText si doc applyOk
              = true)
        ∧ ((if (normalizeText originalText).length < 15 then 40 else 20) ≤
              bestMatch.score → applyOk 0 = false →
            (rest = [] →
              highlightByExactMatchWithScoring originalText si doc applyOk
                = false)
            ∧ ∀ secondMatch rest2, rest = secondMatch :: rest2 →
                ((secondMatch.score <
                    (if (normalizeText originalText).length < 15
                     then 40 else 20) →
                  highlightByExactMatchWithScoring originalText si doc applyOk
                    = false)
                ∧ ((if (normalizeText originalText).length < 15
                     then 40 else 20) ≤ secondMatch.score →
                    highlightByExactMatchWithScoring originalText si doc
                      applyOk = applyOk 1)))) := by
  constructor
  · intro hnil
    by_cases h5 : (normalizeText originalText).length < 5
    · simp [highlightByExactMatchWithScoring, h5]
    · simp [highlightByExactMatchWithScoring, h5, hnil, pickScoredMatch]
  · intro bestMatch rest hmatch hlen
    have h5 : ¬(normalizeText originalText).length < 5 := by omega
    have hunf : highlightByExactMatchWithScoring originalText si doc applyOk =
        pickScoredMatch
          (if (normalizeText originalText).length < 15 then 40 else 20)
          applyOk (bestMatch :: rest) := by
      simp only [highlightByExactMatchWithScoring, hmatch]
      rw [if_neg h5]
    refine ⟨fun hlow => ?_, fun hhigh happ => ?_, fun hhigh happ =>
      ⟨fun hrnil => ?_, fun secondMatch rest2 hr =>
        ⟨fun hlow2 => ?_, fun hhigh2 => ?_⟩⟩⟩
    · rw [hunf, pickScoredMatch, if_pos hlow]
    · rw [hunf, pickScoredMatch, if_neg (Nat.not_lt.mpr hhigh), if_pos happ]
    · rw [hunf, pickScoredMatch, if_neg (Nat.not_lt.mpr hhigh),
        if_neg (by simp [happ]), hrnil, retrySecond]
    · rw [hunf, pickScoredMatch, if_neg (Nat.not_lt.mpr hhigh),
        if_neg (by simp [happ]), hr, retrySecond]
      exact if_neg (Nat.not_le.mpr hlow2)
    · rw [hunf, pickScoredMatch, if_neg (Nat.not_lt.mpr hhigh),
        if_neg (by simp [happ]), hr, retrySecond]
      exact if_pos hhigh2

/-- C4 witness: a concrete document with a single 50-point candidate for a
short search text (threshold 40); the top candidate is applied and the
strategy succeeds. -/
theorem scored_threshold_retry_witness :
    highlightByExactMatchWithScoring ("hello".toList) none
      [⟨("say hello there".toList), none⟩] (fun _ => true) = true :=
  ((scored_threshold_retry ("hello".toList) none
      [⟨("say hello there".toList), none⟩] (fun _ => true)).2
    ⟨⟨("say hello there".toList), none⟩, 5, 50, 4⟩ [] (by decide)
    (by decide)).2.1 (by decide) rfl

/-- The textBefore signal of calculateContextScore (lines 464-478), as a
function of the text preceding the match. -/
def beforeComponent (si : SelectionInfo) (beforeText : List Char) : Nat :=
  if si.textBefore ≠ [] then
    let normalizedBefore := normalizeText beforeText
    let normalizedExpected := normalizeText si.textBefore
    if normalizedExpected.isSuffixOf normalizedBefore then 35
    else if 10 ≤ normalizedExpected.length &&
        jsIncludes normalizedBefore
          (normalizedExpected.drop (normalizedExpected.length - 20)) then 20
    else 0
  else 0

/-- The textAfter signal of calculateContextScore (lines 481-495), as a
function of the text following the match. -/
def afterComponent (si : SelectionInfo) (afterText : List Char) : Nat :=
  if si.textAfter ≠ [] then
    let normalizedAfter := normalizeText afterText
    let normalizedExpected := normalizeText si.textAfter
    if normalizedExpected.isPrefixOf normalizedAfter then 35
    else if 10 ≤ normalizedExpected.length &&
        jsIncludes normalizedAfter (normalizedExpected.take 20) then 20
    else 0
  else 0

/-- The parent-element signal of calculateContextScore (lines 498-507). -/
def parentComponent (si : SelectionInfo) (parent : Option ParentElement) :
    Nat :=
  match parent with
  | none => 0
  | some parent =>
    if si.parentTagName ≠ [] then
      (if parent.tagName = si.parentTagName then 12 else 0) +
      (if si.parentClassName ≠ [] &&
          (match parent.className with
           | some cn => jsIncludes cn si.parentClassName
           | none => false) then 8 else 0)
    else 0

/-- calculateContextScore is the sum of its three context signals plus the
flat 10-point base. -/
theorem calculateContextScore_eq (txt : List Char)
    (parent : Option ParentElement) (i : Nat) (si : SelectionInfo) :
    calculateContextScore ⟨txt, parent⟩ i (some si) =
      beforeComponent si (txt.take i) +
        afterComponent si (txt.drop (i + si.length)) +
        parentComponent si parent + 10 := rfl

/-- C5: scorer monotonicity.  For an anchor with non-empty textBefore,
changing only the text preceding the match so that its normalized form ends
with the anchor's normalized textBefore strictly increases the score versus
an otherwise identical candidate lacking that suffix match; symmetrically
for textAfter against the text following the match. -/
theorem contextScore_monotone :
    (∀ (si : SelectionInfo) (p1 p2 suffix : List Char)
        (parent : Option ParentElement),
      si.textBefore ≠ [] →
      (normalizeText si.textBefore).isSuffixOf (normalizeText p1) = true →
      (normalizeText si.textBefore).isSuffixOf (normalizeText p2) = false →
      calculateContextScore ⟨p2 ++ suffix, parent⟩ p2.length (some si) <
        calculateContextScore ⟨p1 ++ suffix, parent⟩ p1.length (some si))
    ∧ (∀ (si : SelectionInfo) (pre a1 a2 : List Char)
        (parent : Option ParentElement) (i : Nat),
      i + si.length = pre.length →
      si.textAfter ≠ [] →
      (normalizeText si.textAfter).isPrefixOf (normalizeText a1) = true →
      (normalizeText si.textAfter).isPrefixOf (normalizeText a2) = false →
      calculateContextScore ⟨pre ++ a2, parent⟩ i (some si) <
        calculateContextScore ⟨pre ++ a1, parent⟩ i (some si)) := by
  constructor
  · intro si p1 p2 suffix parent hne h1 h2
    rw [calculateContextScore_eq, calculateContextScore_eq,
      List.take_left, List.take_left]
    have hdrop : ∀ p : List Char,
        (p ++ suffix).drop (p.length + si.length) = suffix.drop si.length :=
      fun p => by rw [← List.drop_drop, List.drop_left]
    rw [hdrop p1, hdrop p2]
    have hb1 : beforeComponent si p1 = 35 := by
      simp only [beforeComponent]
      rw [if_pos hne, if_pos h1]
    have hb2 : beforeComponent si p2 ≤ 20 := by
      simp only [beforeComponent]
      rw [if_pos hne, if_neg (by simp [h2])]
      split <;> omega
    omega
  · intro si pre a1 a2 parent i hlen hne h1 h2
    have hile : i ≤ pre.length := by omega
    rw [calculateContextScore_eq, calculateContextScore_eq,
      List.take_append_of_le_length hile, List.take_append_of_le_length hile,
      hlen, List.drop_left, List.drop_left]
    have ha1 : afterComponent si a1 = 35 := by
      simp only [afterComponent]
      rw [if_pos hne, if_pos h1]
    have ha2 : afterComponent si a2 ≤ 20 := by
      simp only [afterComponent]
      rw [if_pos hne, if_neg (by simp [h2])]
      split <;> omega
    omega

/-- C5 witness: concrete candidate pairs for both the textBefore and the
textAfter signal, showing the strict score increase. -/
theorem contextScore_monotone_witness :
    (calculateContextScore ⟨("q".toList) ++ ("zz".toList), none⟩
        ("q".toList).length
        (some ⟨none, 0, 0, [], ("ab".toList), [], [], [], []⟩) <
      calculateContextScore ⟨("xab".toList) ++ ("zz".toList), none⟩
        ("xab".toList).length
        (some ⟨none, 0, 0, [], ("ab".toList), [], [], [], []⟩))
    ∧ (calculateContextScore ⟨("xy".toList) ++ ("q".toList), none⟩ 1
        (some ⟨none, 0, 1, [], [], ("cd".toList), [], [], []⟩) <
      calculateContextScore ⟨("xy".toList) ++ ("cde".toList), none⟩ 1
        (some ⟨none, 0, 1, [], [], ("cd".toList), [], [], []⟩)) :=
  ⟨contextScore_monotone.1 ⟨none, 0, 0, [], ("ab".toList), [], [], [], []⟩
      ("xab".toList) ("q".toList) ("zz".toList) none (by decide) (by decide)
      (by decide),
    contextScore_monotone.2 ⟨none, 0, 1, [], [], ("cd".toList), [], [], []⟩
      ("xy".toList) ("cde".toList) ("q".toList) none 1 (by decide)
      (by decide) (by decide) (by decide)⟩

theorem charOfNat_toNat (n : Nat) (h : n < 55296) :
    (Char.ofNat n).toNat = n := by
  have hv : n.isValidChar := Or.inl h
  rw [Char.ofNat, dif_pos hv]
  simp [Char.ofNatAux, Char.toNat]
  rfl

theorem isJsWhitespace_iff (c : Char) : isJsWhitespace c = true ↔
    (c.toNat = 0x9 ∨ c.toNat = 0xA ∨ c.toNat = 0xB ∨ c.toNat = 0xC ∨
     c.toNat = 0xD ∨ c.toNat = 0x20 ∨ c.toNat = 0xA0 ∨ c.toNat = 0x1680 ∨
     (0x2000 ≤ c.toNat ∧ c.toNat ≤ 0x200A) ∨ c.toNat = 0x2028 ∨
     c.toNat = 0x2029 ∨ c.toNat = 0x202F ∨ c.toNat = 0x205F ∨
     c.toNat = 0x3000 ∨ c.toNat = 0xFEFF) := by
  simp [isJsWhitespace, Bool.or_eq_true, beq_iff_eq, Bool.and_eq_true,
    decide_eq_true_eq, or_assoc]

theorem isZeroWidth_iff (c : Char) : isZeroWidth c = true ↔
    ((0x200B ≤ c.toNat ∧ c.toNat ≤ 0x200D) ∨ c.toNat = 0xFEFF) := by
  simp [isZeroWidth, Bool.or_eq_true, beq_iff_eq, Bool.and_eq_true,
    decide_eq_true_eq]

theorem jsToLower_idem (c : Char) : jsToLower (jsToLower c) = jsToLower c := by
  by_cases h : (65 ≤ c.toNat && c.toNat ≤ 90) = true
  · have hlc : jsToLower c = Char.ofNat (c.toNat + 32) := by
      rw [jsToLower, if_pos h]
    rw [Bool.and_eq_true, decide_eq_true_eq, decide_eq_true_eq] at h
    have ht : (Char.ofNat (c.toNat + 32)).toNat = c.toNat + 32 :=
      charOfNat_toNat _ (by omega)
    rw [hlc, jsToLower, if_neg (by simp [ht]; omega)]
  · have hlc : jsToLower c = c := by rw [jsToLower, if_neg h]
    rw [hlc, hlc]

theorem isJsWhitespace_jsToLower (c : Char) :
    isJsWhitespace (jsToLower c) = isJsWhitespace c := by
  by_cases h : (65 ≤ c.toNat && c.toNat ≤ 90) = true
  · have hlc : jsToLower c = Char.ofNat (c.toNat + 32) := by
      rw [jsToLower, if_pos h]
    rw [hlc]
    rw [Bool.and_eq_true, decide_eq_true_eq, decide_eq_true_eq] at h
    have ht : (Char.ofNat (c.toNat + 32)).toNat = c.toNat + 32 :=
      charOfNat_toNat _ (by omega)
    have h1 : isJsWhitespace (Char.ofNat (c.toNat + 32)) = false := by
      rw [Bool.eq_false_iff]
      intro hh
      rw [isJsWhitespace_iff, ht] at hh
      omega
    have h2 : isJsWhitespace c = false := by
      rw [Bool.eq_false_iff]
      intro hh
      rw [isJsWhitespace_iff] at hh
      omega
    rw [h1, h2]
  · have hlc : jsToLower c = c := by rw [jsToLower, if_neg h]
    rw [hlc]

theorem isZeroWidth_jsToLower (c : Char) :
    isZeroWidth (jsToLower c) = isZeroWidth c := by
  by_cases h : (65 ≤ c.toNat && c.toNat ≤ 90) = true
  · have hlc : jsToLower c = Char.ofNat (c.toNat + 32) := by
      rw [jsToLower, if_pos h]
    rw [hlc]
    rw [Bool.and_eq_true, decide_eq_true_eq, decide_eq_true_eq] at h
    have ht : (Char.ofNat (c.toNat + 32)).toNat = c.toNat + 32 :=
      charOfNat_toNat _ (by omega)
    have h1 : isZeroWidth (Char.ofNat (c.toNat + 32)) = false := by
      rw [Bool.eq_false_iff]
      intro hh
      rw [isZeroWidth_iff, ht] at hh
      omega
    have h2 : isZeroWidth c = false := by
      rw [Bool.eq_false_iff]
      intro hh
      rw [isZeroWidth_iff] at hh
      omega
    rw [h1, h2]
  · have hlc : jsToLower c = c := by rw [jsToLower, if_neg h]
    rw [hlc]

/-- Whitespace characters that survive normalization are single spaces. -/
def SpacedOK (l : List Char) : Prop :=
  ∀ c ∈ l, isJsWhitespace c = true → c = ' '

/-- No two adjacent characters are both whitespace. -/
def NoAdjWs (l : List Char) : Prop :=
  l.Chain' (fun a b => isJsWhitespace a = false ∨ isJsWhitespace b = false)

theorem mem_collapseWsAux {c : Char} :
    ∀ {b : Bool} {l : List Char}, c ∈ collapseWsAux b l →
      c = ' ' ∨ (c ∈ l ∧ isJsWhitespace c = false) := by
  intro b l
  induction l generalizing b with
  | nil => intro h; simp [collapseWsAux] at h
  | cons d rest ih =>
    intro h
    rw [collapseWsAux] at h
    by_cases hd : isJsWhitespace d = true
    · rw [if_pos hd] at h
      cases b with
      | true =>
        rcases ih h with h1 | ⟨h1, h2⟩
        · exact Or.inl h1
        · exact Or.inr ⟨List.mem_cons_of_mem d h1, h2⟩
      | false =>
        rcases List.mem_cons.mp h with h1 | h1
        · exact Or.inl h1
        · rcases ih h1 with h2 | ⟨h2, h3⟩
          · exact Or.inl h2
          · exact Or.inr ⟨List.mem_cons_of_mem d h2, h3⟩
    · rw [if_neg hd] at h
      rcases List.mem_cons.mp h with h1 | h1
      · subst h1
        exact Or.inr ⟨List.mem_cons_self c rest, Bool.not_eq_true _ ▸ hd⟩
      · rcases ih h1 with h2 | ⟨h2, h3⟩
        · exact Or.inl h2
        · exact Or.inr ⟨List.mem_cons_of_mem d h2, h3⟩

theorem head_collapseWsAux_true :
    ∀ (l : List Char) (c : Char),
      (collapseWsAux true l).head? = some c → isJsWhitespace c = false := by
  intro l
  induction l with
  | nil => intro c h; simp [collapseWsAux] at h
  | cons d rest ih =>
    intro c h
    rw [collapseWsAux] at h
    by_cases hd : isJsWhitespace d = true
    · rw [if_pos hd] at h
      exact ih c h
    · rw [if_neg hd] at h
      rw [List.head?_cons, Option.some_inj] at h
      subst h
      exact Bool.not_eq_true _ ▸ hd

theorem spaced_collapseWsAux (b : Bool) (l : List Char) :
    SpacedOK (collapseWsAux b l) := by
  intro c hc hws
  rcases mem_collapseWsAux hc with h1 | ⟨_, h2⟩
  · exact h1
  · rw [hws] at h2; cases h2

theorem chain_collapseWsAux (b : Bool) (l : List Char) :
    NoAdjWs (collapseWsAux b l) := by
  induction l generalizing b with
  | nil => simp [collapseWsAux, NoAdjWs]
  | cons d rest ih =>
    rw [NoAdjWs, collapseWsAux]
    by_cases hd : isJsWhitespace d = true
    · rw [if_pos hd]
      cases b with
      | true => rw [if_pos rfl]; exact ih true
      | false =>
        rw [if_neg (by simp), List.chain'_cons']
        exact ⟨fun y hy => Or.inr (head_collapseWsAux_true rest y hy),
          ih true⟩
    · rw [if_neg hd]
      rw [List.chain'_cons']
      exact ⟨fun y _ => Or.inl (Bool.not_eq_true _ ▸ hd), ih false⟩

theorem collapseWsAux_true_eq (l : List Char)
    (h : ∀ c, l.head? = some c → isJsWhitespace c = false) :
    collapseWsAux true l = collapseWsAux false l := by
  cases l with
  | nil => rfl
  | cons d rest =>
    have hd := h d rfl
    rw [collapseWsAux, collapseWsAux, if_neg (by simp [hd]),
      if_neg (by simp [hd])]

theorem collapseWsAux_false_id :
    ∀ (l : List Char), SpacedOK l → NoAdjWs l → collapseWsAux false l = l := by
  intro l
  induction l with
  | nil => intro _ _; rfl
  | cons d rest ih =>
    intro hs hc
    have hc' := (List.chain'_cons'.mp hc)
    have ihr := ih (fun c hcr => hs c (List.mem_cons_of_mem d hcr)) hc'.2
    by_cases hd : isJsWhitespace d = true
    · have hd' : d = ' ' := hs d (List.mem_cons_self d rest) hd
      rw [collapseWsAux, if_pos hd]
      have hhead : ∀ c, rest.head? = some c → isJsWhitespace c = false := by
        intro c hcc
        rcases hc'.1 c hcc with h1 | h1
        · rw [hd] at h1; cases h1
        · exact h1
      rw [collapseWsAux_true_eq rest hhead, ihr, hd', if_neg (by simp)]
    · rw [collapseWsAux, if_neg hd, ihr]

theorem head_not_ws_of_dropWhile :
    ∀ (l : List Char) (c : Char) (rest : List Char),
      l.dropWhile isJsWhitespace = c :: rest → isJsWhitespace c = false := by
  intro l
  induction l with
  | nil => intro c rest h; simp at h
  | cons d tl ih =>
    intro c rest h
    rw [List.dropWhile_cons] at h
    by_cases hd : isJsWhitespace d = true
    · rw [if_pos hd] at h
      exact ih c rest h
    · rw [if_neg hd] at h
      injection h with h1 _
      subst h1
      exact Bool.not_eq_true _ ▸ hd

theorem trimChars_eq_rdrop (l : List Char) :
    trimChars l =
      (l.dropWhile isJsWhitespace).rdropWhile isJsWhitespace := rfl

theorem mem_trimChars {c : Char} {l : List Char} (h : c ∈ trimChars l) :
    c ∈ l := by
  rw [trimChars_eq_rdrop] at h
  exact ((List.dropWhile_suffix isJsWhitespace).sublist.mem
    ((List.rdropWhile_prefix isJsWhitespace _).sublist.mem h))

theorem chain'_dropWhile {α : Type} {R : α → α → Prop} (p : α → Bool) :
    ∀ {l : List α}, l.Chain' R → (l.dropWhile p).Chain' R := by
  intro l
  induction l with
  | nil => intro h; simp
  | cons d rest ih =>
    intro h
    rw [List.dropWhile_cons]
    by_cases hp : p d = true
    · rw [if_pos hp]
      exact ih h.tail
    · rw [if_neg hp]
      exact h

theorem chain_trimChars (l : List Char) (h : NoAdjWs l) :
    NoAdjWs (trimChars l) := by
  rw [NoAdjWs, trimChars]
  refine List.chain'_reverse.mpr ?_
  refine chain'_dropWhile _ ?_
  refine List.chain'_reverse.mpr ?_
  exact chain'_dropWhile _ h

theorem dropWhile_trimChars_self (l : List Char) :
    (trimChars l).dropWhile isJsWhitespace = trimChars l := by
  rcases ht : trimChars l with _ | ⟨c, rest⟩
  · rfl
  · have hpre :=
      List.rdropWhile_prefix isJsWhitespace (l.dropWhile isJsWhitespace)
    rw [← trimChars_eq_rdrop, ht] at hpre
    rcases hpre with ⟨t, htt⟩
    have hc : isJsWhitespace c = false :=
      head_not_ws_of_dropWhile l c (rest ++ t) (by rw [← htt]; simp)
    rw [List.dropWhile_cons, if_neg (by simp [hc])]

theorem trimChars_idem (l : List Char) :
    trimChars (trimChars l) = trimChars l := by
  rw [trimChars_eq_rdrop (trimChars l), dropWhile_trimChars_self l,
    trimChars_eq_rdrop l]
  exact List.rdropWhile_idempotent _ _

theorem map_jsToLower_eq_self :
    ∀ {l : List Char}, (∀ c ∈ l, jsToLower c = c) → l.map jsToLower = l := by
  intro l
  induction l with
  | nil => intro _; rfl
  | cons d rest ih =>
    intro h
    rw [List.map_cons, h d (List.mem_cons_self d rest),
      ih (fun c hc => h c (List.mem_cons_of_mem d hc))]

/-- C2 counterexample: normalize is not idempotent.  On "a ␣ZWSP␣ b" (a
zero-width space between two single spaces), one pass collapses each space
run first and only then strips the zero-width character, leaving a double
space; the second pass collapses it. -/
theorem normalizeText_not_idempotent :
    normalizeText (normalizeText (['a', ' ', Char.ofNat 0x200B, ' ', 'b'])) ≠
      normalizeText (['a', ' ', Char.ofNat 0x200B, ' ', 'b']) := by decide

/-- C2 (amended): the normalizer is idempotent on every input containing no
zero-width characters (U+200B..U+200D, U+FEFF): one pass then yields
lowercase text whose whitespace consists of single interior ASCII spaces,
which a second pass leaves unchanged. -/
theorem normalizeText_idem_of_noZeroWidth (l : List Char)
    (h : ∀ c ∈ l, isZeroWidth c = false) :
    normalizeText (normalizeText l) = normalizeText l := by
  have hLzw : ∀ c ∈ l.map jsToLower, isZeroWidth c = false := by
    intro c hc
    rcases List.mem_map.mp hc with ⟨d, hd, rfl⟩
    rw [isZeroWidth_jsToLower]
    exact h d hd
  have hMzw : ∀ c ∈ collapseWs (l.map jsToLower), isZeroWidth c = false := by
    intro c hc
    rcases mem_collapseWsAux hc with h1 | ⟨h1, _⟩
    · subst h1; decide
    · exact hLzw c h1
  have hMlower : ∀ c ∈ collapseWs (l.map jsToLower), jsToLower c = c := by
    intro c hc
    rcases mem_collapseWsAux hc with h1 | ⟨h1, _⟩
    · subst h1; decide
    · rcases List.mem_map.mp h1 with ⟨d, _, rfl⟩
      exact jsToLower_idem d
  have hfilter : (collapseWs (l.map jsToLower)).filter
      (fun c => !isZeroWidth c) = collapseWs (l.map jsToLower) :=
    List.filter_eq_self.mpr (fun a ha => by rw [hMzw a ha]; rfl)
  have hnorm : normalizeText l = trimChars (collapseWs (l.map jsToLower)) := by
    rw [normalizeText, hfilter]
  have hRmem : ∀ c ∈ trimChars (collapseWs (l.map jsToLower)),
      c ∈ collapseWs (l.map jsToLower) := fun _ hc => mem_trimChars hc
  have hRlower : ∀ c ∈ trimChars (collapseWs (l.map jsToLower)),
      jsToLower c = c := fun c hc => hMlower c (hRmem c hc)
  have hRzw : ∀ c ∈ trimChars (collapseWs (l.map jsToLower)),
      isZeroWidth c = false := fun c hc => hMzw c (hRmem c hc)
  have hRspaced : SpacedOK (trimChars (collapseWs (l.map jsToLower))) :=
    fun c hc hws =>
      spaced_collapseWsAux false (l.map jsToLower) c (hRmem c hc) hws
  have hRchain : NoAdjWs (trimChars (collapseWs (l.map jsToLower))) :=
    chain_trimChars _ (chain_collapseWsAux false (l.map jsToLower))
  have hcol : collapseWs (trimChars (collapseWs (l.map jsToLower))) =
      trimChars (collapseWs (l.map jsToLower)) :=
    collapseWsAux_false_id _ hRspaced hRchain
  rw [hnorm, normalizeText, map_jsToLower_eq_self hRlower, hcol,
    List.filter_eq_self.mpr (fun a ha => by rw [hRzw a ha]; rfl)]
  exact trimChars_idem _

/-- C2 witness: the amended idempotence at a concrete zero-width-free input
(also exercising case folding and whitespace collapsing). -/
theorem normalizeText_idem_witness :
    normalizeText (normalizeText ("Foo   BAR".toList)) =
      normalizeText ("Foo   BAR".toList) :=
  normalizeText_idem_of_noZeroWidth ("Foo   BAR".toList) (by decide)

end ClipTrace
